import Mathlib

/-!
Shallow embedding of the deep_thought repository's two cores, and theorems
settling the frozen claims against it.

* `Dual F N` embeds `Dual<F, N>` of `src/src/autograd/dual.rs`: a real part
  `val` and a derivative vector `e : Fin N → F`.  The Rust float `F`
  (`f32`/`f64`) is embedded as an ordered field (`ℚ` where only field
  operations occur, `ℝ` where `exp`/`log` are involved); the floating-point
  `%` operator, which neither `ℚ` nor `ℝ` has natively, is passed in as an
  explicit function parameter `fmod` where the source uses it.
* `ArrayRepr` embeds `Array<T, N>` of `src/deep_array/src/array.rs`: the base
  pointer (an optional address, `none` standing for the null pointer), the
  byte stride vector and the axis sizes, with rank-indexed `[usize; N]`
  arrays embedded as lists.  `get` is embedded as the computation it performs
  on indices: the validated linear byte offset of the element (the reference
  it returns is `ptr + offset`).
-/

namespace DeepThought

/-- Embeds `struct Dual<F, const N: usize> { val: F, e: [F; N] }`
(src/src/autograd/dual.rs, lines 7-13). -/
structure Dual (F : Type) (N : ℕ) where
  val : F
  e : Fin N → F

namespace Dual

variable {F : Type} {N : ℕ}

/-- Embeds `Dual::new(val, e)` (dual.rs line 83). -/
def new (val : F) (e : Fin N → F) : Dual F N :=
  { val := val, e := e }

/-- Embeds `Dual::constant(val)` (dual.rs line 89): all partials zero. -/
def constant [Zero F] (val : F) : Dual F N :=
  { val := val, e := fun _ => 0 }

/-- Embeds `Dual::variable(val, index)` (dual.rs line 98; `variable` is a Lean
keyword): the zero vector with `e[index] = 1`. -/
def var [Zero F] [One F] (val : F) (index : Fin N) : Dual F N :=
  { val := val, e := fun i => if i = index then 1 else 0 }

/-- Embeds `impl Add for Dual` (dual.rs lines 153-165). -/
def add [Add F] (a b : Dual F N) : Dual F N :=
  { val := a.val + b.val, e := fun i => a.e i + b.e i }

/-- Embeds `impl Sub for Dual` (dual.rs lines 168-180). -/
def sub [Sub F] (a b : Dual F N) : Dual F N :=
  { val := a.val - b.val, e := fun i => a.e i - b.e i }

/-- Embeds `impl Mul for Dual` (dual.rs lines 183-197):
`e[i] = v_b * d_a[i] + v_a * d_b[i]`. -/
def mul [Mul F] [Add F] (a b : Dual F N) : Dual F N :=
  { val := a.val * b.val, e := fun i => b.val * a.e i + a.val * b.e i }

/-- Embeds `impl Div for Dual` (dual.rs lines 200-214):
`e[i] = (v_b * d_a[i] - v_a * d_b[i]) / v_b²`. -/
def div [Field F] (a b : Dual F N) : Dual F N :=
  { val := a.val / b.val
    e := fun i => (b.val * a.e i - a.val * b.e i) / (b.val * b.val) }

/-- Embeds `impl Rem for Dual` (dual.rs lines 549-557): the value is
`v_a % v_b` (the float modulus, passed as `fmod`) and the derivative vector
is kept as `self.e`. -/
def rem (fmod : F → F → F) (a b : Dual F N) : Dual F N :=
  { val := fmod a.val b.val, e := a.e }

/-- Embeds `impl Rem<F> for Dual` (dual.rs lines 363-370): the source maps
every derivative component to `x / other`. -/
def remF [Div F] (fmod : F → F → F) (a : Dual F N) (other : F) : Dual F N :=
  { val := fmod a.val other, e := fun i => a.e i / other }

/-- Embeds `impl Neg for Dual` (dual.rs lines 484-494): the source negates
`val` but keeps `e` unchanged (`e: self.e`). -/
def neg [Neg F] (a : Dual F N) : Dual F N :=
  { val := -a.val, e := a.e }

/-- Embeds `Zero::zero` for Dual (dual.rs lines 524-529). -/
def zero [Zero F] : Dual F N :=
  { val := 0, e := fun _ => 0 }

/-- Embeds `Zero::is_zero` for Dual (dual.rs lines 531-533): the real part
and every derivative component must be zero. -/
def is_zero [Zero F] (a : Dual F N) : Prop :=
  a.val = 0 ∧ ∀ i, a.e i = 0

/-- Embeds `PartialEq for Dual` (dual.rs lines 563-567): only the real parts
are compared. -/
def eq (a b : Dual F N) : Prop :=
  a.val = b.val

/-- Embeds `PartialOrd::partial_cmp for Dual` (dual.rs lines 579-583): the
comparison of the real parts (total on the embedded ordered field, so the
`Option` wrapper of the source is always `Some`). -/
def partial_cmp [LinearOrder F] (a b : Dual F N) : Ordering :=
  compare a.val b.val

/-- Embeds Rust's derived `<` operator: `PartialOrd::lt` holds exactly when
`partial_cmp` returns `Less`. -/
def lt [LinearOrder F] (a b : Dual F N) : Prop :=
  partial_cmp a b = Ordering.lt

/-- Embeds `Float::powi` (dual.rs lines 675-679): the source computes
`e = self.e.map(|x| exp * x.powi(n - 1))`, raising the derivative component
`x` (not the value) to the power `n - 1`. -/
def powi [Field F] (a : Dual F N) (n : ℤ) : Dual F N :=
  { val := a.val ^ n, e := fun i => (n : F) * a.e i ^ (n - 1) }

end Dual

variable {F : Type}

/-- Embeds `impl Add<Dual<$real, N>> for $real` (dual.rs lines 278-285):
`new(self + other.val, other.e)`. -/
def realAddDual [Add F] {N : ℕ} (r : F) (a : Dual F N) : Dual F N :=
  Dual.new (r + a.val) a.e

/-- Embeds `impl Sub<Dual<$real, N>> for $real` (dual.rs lines 287-295): the
body is `unimplemented!()` (a panic), modelled as `none`; the commented-out
line after it would have returned the constant-dual difference. -/
def realSubDual {N : ℕ} (r : F) (a : Dual F N) : Option (Dual F N) :=
  none

/-- Embeds `impl Mul<Dual<$real, N>> for $real` (dual.rs lines 297-304):
`new(self * other.val, other.e.map(|x| self * x))`. -/
def realMulDual [Mul F] {N : ℕ} (r : F) (a : Dual F N) : Dual F N :=
  Dual.new (r * a.val) (fun i => r * a.e i)

/-- Embeds `impl Div<Dual<$real, N>> for $real` (dual.rs lines 306-313): the
source returns `new(self / other.val, [$real::zero(); N])` — every
derivative component is zero. -/
def realDivDual [Div F] [Zero F] {N : ℕ} (r : F) (a : Dual F N) : Dual F N :=
  Dual.new (r / a.val) (fun _ => 0)

/-- Embeds `impl Rem<Dual<$real, N>> for $real` (dual.rs lines 315-322):
`constant(self) % other`, the Dual-by-Dual remainder. -/
def realRemDual [Zero F] {N : ℕ} (fmod : F → F → F) (r : F) (a : Dual F N) :
    Dual F N :=
  Dual.rem fmod (Dual.constant r) a

/-- Embeds `Float::exp` for Dual at `F = f64 ↝ ℝ` (dual.rs lines 696-700):
`val = exp(v)`, `e = self.e.map(|x| x * val)`. -/
noncomputable def Dual.exp {N : ℕ} (a : Dual ℝ N) : Dual ℝ N :=
  Dual.new (Real.exp a.val) (fun i => a.e i * Real.exp a.val)

/-- Embeds `Float::log2` for Dual at `F = f64 ↝ ℝ` (dual.rs lines 717-720):
the value is the base-2 logarithm, but the source divides each derivative
component by `self.val * F::from(10).unwrap().ln()` — by `ln 10`, not `ln 2`. -/
noncomputable def Dual.log2 {N : ℕ} (a : Dual ℝ N) : Dual ℝ N :=
  Dual.new (Real.logb 2 a.val) (fun i => a.e i / (a.val * Real.log 10))

/-- The sigmoid `1 / (1 + exp(-x))` (src/src/activation.rs line 41) composed
from the embedded Dual operations: unary negation, `exp`, real-plus-Dual
addition and real-divided-by-Dual division. -/
noncomputable def sigmoid {N : ℕ} (x : Dual ℝ N) : Dual ℝ N :=
  realDivDual 1 (realAddDual 1 (Dual.exp (Dual.neg x)))

/-- Embeds `enum Error` (src/deep_array/src/error.rs lines 5-35): the error
kinds visible to callers of the array core.  The enum has exactly these three
constructors. -/
inductive ArrayError where
  | IndexOutOfBounds (ix : ℕ) (axis_ix : ℕ) (axis_size : ℕ)
  | OffsetOutOfBounds (offset : ℕ) (bound : ℕ)
  | ReshapeIncompatibleShape (size : ℕ) (new_shape : List ℕ)
  deriving DecidableEq

/-- Embeds `struct Array<T, N>` (src/deep_array/src/array.rs lines 6-14):
base pointer (an optional address, `none` for the null pointer the allocator
may return), byte strides, and axis sizes, with the rank-`N` `[usize; N]`
arrays embedded as lists of length `N`. -/
structure ArrayRepr where
  ptr : Option ℕ
  stride : List ℕ
  dim : List ℕ
  deriving DecidableEq

/-- Embeds `stride_packed` (src/deep_array/src/allocation.rs lines 14-20):
`stride[N-1] = elem_size`, and `stride[i] = dim[i+1] * stride[i+1]` going
down from `N-2` (rendered as structural recursion from the front; the
`headD` default is never used because the recursive result is nonempty). -/
def stride_packed : List ℕ → ℕ → List ℕ
  | [], _ => []
  | [_], elem_size => [elem_size]
  | _ :: d1 :: ds, elem_size =>
    let rest := stride_packed (d1 :: ds) elem_size
    d1 * rest.headD elem_size :: rest

/-- Embeds `WORD_SIZE` (allocation.rs line 8): 8 on a 64-bit host. -/
def WORD_SIZE : ℕ := 8

/-- Embeds `stride_strided` (allocation.rs lines 24-37): pads the element
size to `((elem_size / WORD_SIZE) + add) * WORD_SIZE` with `add = 0` exactly
when `elem_size` is a multiple of the word size, then runs the same
recurrence as `stride_packed` on the padded size. -/
def stride_strided (dim : List ℕ) (elem_size : ℕ) : List ℕ :=
  let add : ℕ := if elem_size % WORD_SIZE = 0 then 0 else 1
  let padded_size := (elem_size / WORD_SIZE + add) * WORD_SIZE
  stride_packed dim padded_size

/-- The loop body of `Array::_get_internal_ix` (array.rs lines 89-103): walk
`ix.zip(dim)` with the running axis index and accumulated offset, returning
the first out-of-bounds error (`ix >= axis_size`) or the final offset, each
in-range axis adding `ix * stride[axis_ix]`. -/
def get_internal_ix_go (stride : List ℕ) :
    List (ℕ × ℕ) → ℕ → ℕ → Except ArrayError ℕ
  | [], _, acc => Except.ok acc
  | (ix, axis_size) :: rest, axis_ix, acc =>
    if axis_size ≤ ix then
      Except.error (ArrayError.IndexOutOfBounds ix axis_ix axis_size)
    else
      get_internal_ix_go stride rest (axis_ix + 1) (acc + ix * stride.getD axis_ix 0)

/-- Embeds `Array::_get_internal_ix` (array.rs lines 89-103). -/
def ArrayRepr.get_internal_ix (a : ArrayRepr) (ix : List ℕ) :
    Except ArrayError ℕ :=
  get_internal_ix_go a.stride (ix.zip a.dim) 0 0

/-- Embeds `Array::get` (array.rs lines 122-126): validates the multi-index
through `_get_internal_ix` and reads at the returned linear offset; the
observable modelled here is that offset (the returned reference is
`ptr + offset`). -/
def ArrayRepr.get (a : ArrayRepr) (ix : List ℕ) : Except ArrayError ℕ :=
  a.get_internal_ix ix

/-- Embeds `Array::uninitialized` (allocation.rs lines 46-55): stores
whatever pointer the allocator returned — null (`none`) included — with the
packed stride for the element size; the source returns `Self`, not a
`Result`, so the construction cannot report an allocation failure. -/
def ArrayRepr.uninitialized (dim : List ℕ) (elem_size : ℕ)
    (alloc_result : Option ℕ) : ArrayRepr :=
  { ptr := alloc_result, stride := stride_packed dim elem_size, dim := dim }

/-- `stride_packed` of a nonempty shape is nonempty. -/
theorem stride_packed_ne_nil (d : ℕ) (ds : List ℕ) (w : ℕ) :
    stride_packed (d :: ds) w ≠ [] := by
  cases ds <;> simp [stride_packed]

/-- The stride vector has one entry per axis. -/
theorem stride_packed_length (dim : List ℕ) (w : ℕ) :
    (stride_packed dim w).length = dim.length := by
  induction dim with
  | nil => rfl
  | cons d ds ih =>
    cases ds with
    | nil => rfl
    | cons d1 ds' => simp only [stride_packed, List.length_cons, ih]

/-- The last packed stride entry is the element size. -/
theorem stride_packed_getLast (dim : List ℕ) (w : ℕ) (h : dim ≠ []) :
    (stride_packed dim w).getLast? = some w := by
  induction dim with
  | nil => exact absurd rfl h
  | cons d ds ih =>
    cases ds with
    | nil => rfl
    | cons d1 ds' =>
      obtain ⟨s, ss, hs⟩ := List.exists_cons_of_ne_nil (stride_packed_ne_nil d1 ds' w)
      simp only [stride_packed, hs, List.getLast?_cons_cons]
      have := ih (by simp)
      rwa [hs] at this

/-- Each earlier packed stride entry is the next axis length times the next
stride entry. -/
theorem stride_packed_step (dim : List ℕ) (w : ℕ) :
    ∀ i, i + 1 < dim.length →
      (stride_packed dim w).getD i 0 =
        dim.getD (i + 1) 0 * (stride_packed dim w).getD (i + 1) 0 := by
  induction dim with
  | nil => intro i h; simp at h
  | cons d ds ih =>
    intro i h
    cases ds with
    | nil => simp at h
    | cons d1 ds' =>
      obtain ⟨s, ss, hs⟩ := List.exists_cons_of_ne_nil (stride_packed_ne_nil d1 ds' w)
      cases i with
      | zero => simp [stride_packed, hs]
      | succ i' =>
        have h' : i' + 1 < (d1 :: ds').length := by
          simpa using Nat.lt_of_succ_lt_succ h
        have := ih i' h'
        simpa [stride_packed, List.getD_cons_succ] using this

/-- In-range run of the `_get_internal_ix` loop: with every zipped index below
its axis size, the loop returns the accumulator plus the dot product of the
indices with the strides starting at position `k`. -/
theorem go_ok (s : List ℕ) :
    ∀ (ix dim : List ℕ) (k acc : ℕ), ix.length = dim.length →
      (∀ i, i < ix.length → ix.getD i 0 < dim.getD i 0) →
      get_internal_ix_go s (ix.zip dim) k acc =
        Except.ok (acc + ∑ j ∈ Finset.range ix.length, ix.getD j 0 * s.getD (k + j) 0) := by
  intro ix
  induction ix with
  | nil =>
    intro dim k acc _ _
    simp [get_internal_ix_go]
  | cons x xs ih =>
    intro dim k acc hlen hin
    cases dim with
    | nil => simp at hlen
    | cons y ys =>
      have hx : x < y := by simpa using hin 0 (Nat.succ_pos _)
      have hrec := ih ys (k + 1) (acc + x * s.getD k 0) (by simpa using hlen)
        (fun i hi => by simpa using hin (i + 1) (Nat.succ_lt_succ hi))
      have hsum : ∑ j ∈ Finset.range (xs.length + 1), (x :: xs).getD j 0 * s.getD (k + j) 0
          = x * s.getD k 0 + ∑ j ∈ Finset.range xs.length, xs.getD j 0 * s.getD (k + 1 + j) 0 := by
        rw [Finset.sum_range_succ']
        simp only [List.getD_cons_succ, List.getD_cons_zero, Nat.add_zero]
        rw [Nat.add_comm]
        congr 1
        refine Finset.sum_congr rfl fun j _ => ?_
        have harith : k + (j + 1) = k + 1 + j := by omega
        rw [harith]
      rw [List.zip_cons_cons, get_internal_ix_go, if_neg (not_le.mpr hx), hrec,
        List.length_cons, hsum]
      congr 1
      omega

/-- Failing run of the `_get_internal_ix` loop: at the first zipped position
`j` whose index reaches its axis size, the loop stops with
`IndexOutOfBounds` carrying that index, the absolute axis number `k + j`,
and that axis's size. -/
theorem go_err (s : List ℕ) :
    ∀ (ix dim : List ℕ) (j k acc : ℕ), ix.length = dim.length → j < ix.length →
      dim.getD j 0 ≤ ix.getD j 0 →
      (∀ i, i < j → ix.getD i 0 < dim.getD i 0) →
      get_internal_ix_go s (ix.zip dim) k acc =
        Except.error (ArrayError.IndexOutOfBounds (ix.getD j 0) (k + j) (dim.getD j 0)) := by
  intro ix
  induction ix with
  | nil =>
    intro dim j k acc _ hj _ _
    simp at hj
  | cons x xs ih =>
    intro dim j k acc hlen hj hge hlt
    cases dim with
    | nil => simp at hlen
    | cons y ys =>
      cases j with
      | zero =>
        simp only [List.getD_cons_zero] at hge ⊢
        rw [List.zip_cons_cons, get_internal_ix_go, if_pos hge, Nat.add_zero]
      | succ j' =>
        have hx : x < y := by simpa using hlt 0 (Nat.succ_pos _)
        have hrec := ih ys j' (k + 1) (acc + x * s.getD k 0) (by simpa using hlen)
          (by simpa using Nat.lt_of_succ_lt_succ hj) (by simpa using hge)
          (fun i hi => by simpa using hlt (i + 1) (Nat.succ_lt_succ hi))
        have harith : k + 1 + j' = k + (j' + 1) := by omega
        rw [List.zip_cons_cons, get_internal_ix_go, if_neg (not_le.mpr hx), hrec, harith]
        simp only [List.getD_cons_succ]

/-- C1: how the mixed real/Dual operations of dual.rs actually behave:
`r + a` and `r * a` follow the constant-dual rule, but `r - a` panics
(`unimplemented!`, embedded as `none`), `r / a` returns all-zero partials
where the constant-dual rule gives `-r·d_a[i]/v_a²` (here `-3/4 ≠ 0`), and
`a % r` divides each partial by `r` instead of keeping it (`4/2 = 2 ≠ 4`). -/
theorem c1_mixed_ops_code :
    realSubDual (1 : ℚ) (Dual.new 2 ![3]) = none
  ∧ (realAddDual (1 : ℚ) (Dual.new 2 ![3])).val = 3
  ∧ (realAddDual (1 : ℚ) (Dual.new 2 ![3])).e 0 = 3
  ∧ (realMulDual (2 : ℚ) (Dual.new 2 ![3])).val = 4
  ∧ (realMulDual (2 : ℚ) (Dual.new 2 ![3])).e 0 = 6
  ∧ (realDivDual (1 : ℚ) (Dual.new 2 ![3])).e 0 = 0
  ∧ (-(1 : ℚ) * 3) / (2 * 2) = -(3 / 4)
  ∧ ((0 : ℚ) ≠ -(3 / 4))
  ∧ (∀ f : ℚ → ℚ → ℚ, (Dual.remF f (Dual.new 5 ![4]) 2).e 0 = 2)
  ∧ ((2 : ℚ) ≠ 4) := by
  refine ⟨rfl, ?_, ?_, ?_, ?_, rfl, by norm_num, by norm_num, fun f => ?_, by norm_num⟩
  · show (1 : ℚ) + 2 = 3
    norm_num
  · simp [realAddDual, Dual.new]
  · show (2 : ℚ) * 2 = 4
    norm_num
  · simp [realMulDual, Dual.new]
    norm_num
  · show (Dual.new (5 : ℚ) ![4]).e 0 / 2 = 2
    norm_num [Dual.new]

/-- C2: `Neg for Dual` negates the real part but keeps the derivative vector
unchanged (`e: self.e`): at the dual (1, [2]) the code yields (-1, [2]),
while the spec's rule `-a = (-v, -d)` demands (-1, [-2]), and `2 ≠ -2`. -/
theorem c2_neg_code :
    (Dual.neg (Dual.new (1 : ℚ) ![2])).val = -1
  ∧ (Dual.neg (Dual.new (1 : ℚ) ![2])).e 0 = 2
  ∧ ((2 : ℚ) ≠ -2) := by
  refine ⟨rfl, ?_, by norm_num⟩
  simp [Dual.neg, Dual.new]

/-- C3: the sigmoid `1/(1 + exp(-x))` at `x = variable(0, 0)` composed from
the embedded Dual operations has value 1/2 but derivative component 0 — the
real-divided-by-Dual division drops every partial — not the 0.25 the claim
states. -/
theorem c3_sigmoid_code :
    (sigmoid (Dual.var (0 : ℝ) (0 : Fin 1))).val = 1 / 2
  ∧ (sigmoid (Dual.var (0 : ℝ) (0 : Fin 1))).e 0 = 0
  ∧ ((0 : ℝ) ≠ 1 / 4) := by
  refine ⟨?_, rfl, by norm_num⟩
  simp [sigmoid, Dual.var, Dual.neg, Dual.exp, realAddDual, realDivDual,
    Dual.new, Real.exp_zero]
  norm_num

/-- C4: `Float::powi` raises the derivative component instead of the value
to the power `n - 1`: at the dual (2, [1]) with n = 3 the code computes
derivative `3 · 1² = 3`, while the claimed rule `n·v^(n-1)·d` gives
`3 · 2² · 1 = 12`, and `3 ≠ 12`; the value 2³ = 8 is correct. -/
theorem c4_powi_code :
    (Dual.powi (Dual.new (2 : ℚ) ![1]) 3).val = 8
  ∧ (Dual.powi (Dual.new (2 : ℚ) ![1]) 3).e 0 = 3
  ∧ (3 : ℚ) * 2 ^ ((3 : ℤ) - 1) * 1 = 12
  ∧ ((3 : ℚ) ≠ 12) := by
  refine ⟨?_, ?_, by norm_num, by norm_num⟩
  · show (2 : ℚ) ^ (3 : ℤ) = 8
    norm_num
  · show ((3 : ℤ) : ℚ) * (Dual.new (2 : ℚ) ![1]).e 0 ^ ((3 : ℤ) - 1) = 3
    norm_num [Dual.new]

/-- C5: the code's `log2` derivative divides by `v · ln 10` instead of
`v · ln 2`: at the dual (2, [1]) the computed component `1/(2·ln 10)`
differs from the correct `1/(2·ln 2)`. -/
theorem c5_log2_code :
    (Dual.log2 (Dual.new (2 : ℝ) ![1])).e 0 = 1 / (2 * Real.log 10)
  ∧ (Dual.log2 (Dual.new (2 : ℝ) ![1])).val = Real.logb 2 2
  ∧ 1 / (2 * Real.log 10) ≠ 1 / (2 * Real.log 2) := by
  refine ⟨?_, rfl, ?_⟩
  · simp [Dual.log2, Dual.new]
  · have h2 : (0 : ℝ) < Real.log 2 := Real.log_pos (by norm_num)
    have h10 : Real.log 2 < Real.log 10 := Real.log_lt_log (by norm_num) (by norm_num)
    exact ne_of_lt (one_div_lt_one_div_of_lt (by nlinarith) (by nlinarith))

/-- C6: `Array::get` on an in-range multi-index uses the linear offset
`Σ ix[k]·stride[k]`, and on the first offending axis `j` (every earlier axis
in range, `ix[j] ≥ dim[j]`) fails with `IndexOutOfBounds` reporting that
axis, the requested index and the axis bound, the index at least the
bound. -/
theorem c6_get_spec (a : ArrayRepr) (ix : List ℕ)
    (hlen : ix.length = a.dim.length) :
    ((∀ k, k < ix.length → ix.getD k 0 < a.dim.getD k 0) →
      a.get ix =
        Except.ok (∑ k ∈ Finset.range ix.length, ix.getD k 0 * a.stride.getD k 0))
  ∧ (∀ j, j < ix.length → a.dim.getD j 0 ≤ ix.getD j 0 →
      (∀ k, k < j → ix.getD k 0 < a.dim.getD k 0) →
      a.get ix = Except.error
        (ArrayError.IndexOutOfBounds (ix.getD j 0) j (a.dim.getD j 0))
      ∧ a.dim.getD j 0 ≤ ix.getD j 0) := by
  constructor
  · intro hin
    have h := go_ok a.stride ix a.dim 0 0 hlen hin
    simpa [ArrayRepr.get, ArrayRepr.get_internal_ix] using h
  · intro j hj hge hlt
    have h := go_err a.stride ix a.dim j 0 0 hlen hj hge hlt
    exact ⟨by simpa [ArrayRepr.get, ArrayRepr.get_internal_ix] using h, hge⟩

/-- C6 witness: in a 2×3 array with byte strides (3, 1), the in-range index
(1, 2) resolves to offset 1·3 + 2·1 = 5, and the index (1, 5) fails on axis
1 with bound 3. -/
theorem c6_get_witness :
    ArrayRepr.get ⟨some 0, [3, 1], [2, 3]⟩ [1, 2] = Except.ok 5
  ∧ ArrayRepr.get ⟨some 0, [3, 1], [2, 3]⟩ [1, 5] =
      Except.error (ArrayError.IndexOutOfBounds 5 1 3) := by
  constructor
  · have h := (c6_get_spec ⟨some 0, [3, 1], [2, 3]⟩ [1, 2] (by decide)).1 (by decide)
    rw [h]
    congr 1
  · exact ((c6_get_spec ⟨some 0, [3, 1], [2, 3]⟩ [1, 5] (by decide)).2 1
      (by decide) (by decide) (by decide)).1

/-- C7: the packed stride of shape (2,3,4) at element size 2 is (24,8,2) and
the word-aligned stride is (96,32,8); in general the last packed entry is
the element size, each earlier entry is `dim[i+1] · stride[i+1]`, and
`stride_strided` is the packed recurrence on the element size rounded up to
the next multiple of the word size. -/
theorem c7_stride_spec :
    stride_packed [2, 3, 4] 2 = [24, 8, 2]
  ∧ stride_strided [2, 3, 4] 2 = [96, 32, 8]
  ∧ (∀ (dim : List ℕ) (w : ℕ), dim ≠ [] →
      (stride_packed dim w).getLast? = some w)
  ∧ (∀ (dim : List ℕ) (w i : ℕ), i + 1 < dim.length →
      (stride_packed dim w).getD i 0 =
        dim.getD (i + 1) 0 * (stride_packed dim w).getD (i + 1) 0)
  ∧ (∀ (dim : List ℕ) (w : ℕ),
      stride_strided dim w =
        stride_packed dim ((w + (WORD_SIZE - 1)) / WORD_SIZE * WORD_SIZE)) := by
  refine ⟨by decide, by decide, stride_packed_getLast,
    fun dim w i h => stride_packed_step dim w i h, ?_⟩
  intro dim w
  have hpad : (w / WORD_SIZE + if w % WORD_SIZE = 0 then 0 else 1) * WORD_SIZE
      = (w + (WORD_SIZE - 1)) / WORD_SIZE * WORD_SIZE := by
    unfold WORD_SIZE
    by_cases h : w % 8 = 0
    · rw [if_pos h]
      omega
    · rw [if_neg h]
      omega
  simpa [stride_strided] using congrArg (stride_packed dim) hpad

/-- C7 witness: the general stride laws applied to shape (2,3,4) at element
size 2: the last packed entry is 2 and the first entry is 3 · 8. -/
theorem c7_stride_witness :
    (stride_packed [2, 3, 4] 2).getLast? = some 2
  ∧ (stride_packed [2, 3, 4] 2).getD 0 0 =
      ([2, 3, 4] : List ℕ).getD 1 0 * (stride_packed [2, 3, 4] 2).getD 1 0 := by
  exact ⟨c7_stride_spec.2.2.1 [2, 3, 4] 2 (by decide),
    c7_stride_spec.2.2.2.1 [2, 3, 4] 2 0 (by decide)⟩

/-- C8 (amended): the array error type has exactly the kinds
IndexOutOfBounds, OffsetOutOfBounds and ReshapeIncompatibleShape — no
AllocationFailed exists — and `uninitialized` returns the array directly,
storing whatever pointer the allocator produced (null when it returned no
memory), so no allocation error reaches the caller. -/
theorem c8_error_kinds :
    (∀ e : ArrayError,
        (∃ i a s, e = ArrayError.IndexOutOfBounds i a s)
      ∨ (∃ o b, e = ArrayError.OffsetOutOfBounds o b)
      ∨ (∃ s ns, e = ArrayError.ReshapeIncompatibleShape s ns))
  ∧ (∀ dim w r, (ArrayRepr.uninitialized dim w r).ptr = r) := by
  constructor
  · intro e
    cases e with
    | IndexOutOfBounds i a s => exact Or.inl ⟨i, a, s, rfl⟩
    | OffsetOutOfBounds o b => exact Or.inr (Or.inl ⟨o, b, rfl⟩)
    | ReshapeIncompatibleShape s ns => exact Or.inr (Or.inr ⟨s, ns, rfl⟩)
  · intro dim w r
    rfl

/-- C8 counterexample: constructing a length-2 array through `uninitialized`
with a failing allocator (null result) still returns an Array — null base
pointer, packed stride, the requested shape — rather than failing with a
recoverable AllocationFailed error, a kind the error type does not have. -/
theorem c8_alloc_counterexample :
    ArrayRepr.uninitialized [2] 8 none =
      { ptr := none, stride := [8], dim := [2] } := rfl

/-- C9: Dual equality compares only the real parts and the strict order
derived from `partial_cmp` holds exactly when the real parts are ordered;
two duals with equal values but different gradients compare equal. -/
theorem c9_cmp_spec :
    (∀ (F : Type) [inst : LinearOrder F] (N : ℕ) (a b : Dual F N),
        (Dual.eq a b ↔ a.val = b.val) ∧ (Dual.lt a b ↔ a.val < b.val))
  ∧ Dual.eq (Dual.new (1 : ℚ) ![0]) (Dual.new 1 ![5])
  ∧ (Dual.new (1 : ℚ) ![0]).e 0 ≠ (Dual.new (1 : ℚ) ![5]).e 0 := by
  refine ⟨fun F _ N a b => ⟨Iff.rfl, ?_⟩, rfl, by decide⟩
  simp [Dual.lt, Dual.partial_cmp, compare_lt_iff_lt]

/-- C10: `is_zero` demands the real part and every derivative component be
zero, while equality against `Dual::zero()` checks only the real part; the
dual (0, [1, 0]) equals zero under `==` yet is not `is_zero`. -/
theorem c10_zero_spec :
    (∀ (F : Type) [inst : Zero F] (N : ℕ) (a : Dual F N),
        (Dual.is_zero a ↔ a.val = 0 ∧ ∀ i, a.e i = 0)
      ∧ (Dual.eq a Dual.zero ↔ a.val = 0))
  ∧ Dual.eq (Dual.new (0 : ℚ) ![1, 0]) Dual.zero
  ∧ ¬ Dual.is_zero (Dual.new (0 : ℚ) ![1, 0]) := by
  refine ⟨fun F _ N a => ⟨Iff.rfl, Iff.rfl⟩, rfl, ?_⟩
  rintro ⟨-, h⟩
  simpa [Dual.new] using h 0

end DeepThought
